import Mathlib

/-!
Verification of the LSB watermark codec in `cpp-service/main.cpp`.

The embedding is shallow: characters and 8-bit pixel samples are `Nat`
(the C++ types bound them below 256; theorems carry that bound where it
matters), bit strings are `List Bool` ('1' ↦ `true`), the floating-point
confidence scores are `ℚ` (the code only ever assigns the constants
0.0, 0.1 and 0.99 and never computes with them), and the fallible
request handlers return `Except`.  File I/O (`imread`/`imwrite`) and the
cosmetic preview rendering are outside the embedded core; in
`processWatermark` the destination write happens in the source only
after every check has passed, which the model reflects by producing the
raster to be written only in the `.ok` case.
-/

namespace ImageSentinel

/-- The magic header `"#IS#"` prepended to every payload (`MAGIC_HEADER`
in the source), as its ASCII byte values. -/
def MAGIC_HEADER : List Nat := [35, 73, 83, 35]

/-- One pixel of a `Vec3b` raster: channel 0 (`blue`) is the carrier
channel. -/
structure Pixel where
  blue : Nat
  green : Nat
  red : Nat
  deriving DecidableEq, Repr

/-- An OpenCV `Mat` of `Vec3b` pixels: `rows × cols` pixels stored in
row-major order.  `hsize` is the `Mat` invariant relating the buffer to
the dimensions. -/
structure RasterImage where
  rows : Nat
  cols : Nat
  data : List Pixel
  hsize : data.length = rows * cols

/-- `sanitizeString`: bytes outside printable ASCII `[32,126]` become
`'?'` (63).  A C++ `char` is signed, so bytes ≥ 128 compare negative and
are replaced, exactly as `c ≤ 126` fails for them here. -/
def sanitizeString (input : List Nat) : List Nat :=
  input.map (fun c => if 32 ≤ c ∧ c ≤ 126 then c else 63)

/-- The 8 bits of a byte, most significant first: the inner loop
`for (int i = 7; i >= 0; --i) ... (c >> i) & 1` of `textToBinary`. -/
def byteBits (c : Nat) : List Bool :=
  (List.range 8).map (fun i => c.testBit (7 - i))

/-- `textToBinary`: empty or over-long text yields `""`; otherwise an
8-bit MSB-first length prefix followed by each character's 8 bits,
MSB first. -/
def textToBinary (text : List Nat) : List Bool :=
  if text.length = 0 ∨ 255 < text.length then []
  else byteBits text.length ++ text.flatMap byteBits

/-- Decode an 8-bit MSB-first value from the front of a bit string,
treating missing bits as 0: the loop
`if (bits[i] == '1') v |= (1 << (7 - i))` shared by `binaryToText`
(length and character decoding, where all 8 bits exist) and
`processVerify` (length decoding guarded by `lengthBits.length() > i`). -/
def bitsToByte (bits : List Bool) : Nat :=
  (List.range 8).foldl
    (fun acc i => if bits.getD i false then acc ||| (1 <<< (7 - i)) else acc) 0

/-- `binaryToText`: returns the decoded text together with the
confidence out-parameter.  Fewer than 8 bits, a zero length field, or a
length field promising more bits than are present give `("", 0.0)`;
otherwise the `len` characters are decoded and confidence is 0.99. -/
def binaryToText (binaryStr : List Bool) : List Nat × ℚ :=
  if binaryStr.length < 8 then ([], 0)
  else
    let len := bitsToByte binaryStr
    if len = 0 ∨ binaryStr.length < 8 + len * 8 then ([], 0)
    else
      ((List.range len).map (fun i => bitsToByte (binaryStr.drop (8 + i * 8))),
        99 / 100)

/-- Overwrite the least-significant bit of a pixel's carrier (blue)
channel: `blue = (blue & 0xFE) | (bit == '1' ? 0x01 : 0x00)`. -/
def setLSB (p : Pixel) (b : Bool) : Pixel :=
  { p with blue := (p.blue &&& 0xFE) ||| (if b then 1 else 0) }

/-- The doubly nested embedding loop of `processWatermark`, flattened to
the row-major pixel list: each pixel consumes one bit until the bit
string is exhausted (`goto embedding_done`); remaining pixels are left
untouched. -/
def embedData : List Pixel → List Bool → List Pixel
  | [], _ => []
  | p :: ps, [] => p :: ps
  | p :: ps, b :: bs => setLSB p b :: embedData ps bs

theorem length_embedData (ps : List Pixel) (bs : List Bool) :
    (embedData ps bs).length = ps.length := by
  induction ps generalizing bs with
  | nil => cases bs <;> rfl
  | cons p ps ih => cases bs with
    | nil => rfl
    | cons b bs => simpa [embedData] using ih bs

/-- Embedding into the cloned raster (`img.clone()` followed by the loop
above); dimensions are unchanged. -/
def embedBits (img : RasterImage) (bits : List Bool) : RasterImage :=
  ⟨img.rows, img.cols, embedData img.data bits, by
    rw [length_embedData]; exact img.hsize⟩

/-- Errors thrown by `processWatermark` before anything is written:
`invalidPayload` is `"水印内容无效"` (framed text rejected by
`textToBinary`), `capacityError` is `"图片太小，无法嵌入水印"`. -/
inductive EmbedError where
  | invalidPayload
  | capacityError
  deriving DecidableEq, Repr

/-- `processWatermark`: prepend the magic header, frame, check the bit
count against `rows*cols`, then embed into a clone.  In the source,
`imwrite(outputPath, ...)` runs only after these checks, so an `.error`
result means the destination is never written. -/
def processWatermark (img : RasterImage) (watermarkText : List Nat) :
    Except EmbedError RasterImage :=
  let fullPayload := MAGIC_HEADER ++ watermarkText
  let binaryWatermark := textToBinary fullPayload
  let watermarkLen := binaryWatermark.length
  if watermarkLen = 0 then .error .invalidPayload
  else if img.rows * img.cols < watermarkLen then .error .capacityError
  else .ok (embedBits img binaryWatermark)

/-- The LSBs of the carrier channel of the first `n` pixels in row-major
order: `(pixel[0] & 0x01) == 1` per pixel. -/
def extractLSBs (img : RasterImage) (n : Nat) : List Bool :=
  (img.data.take n).map (fun p => (p.blue &&& 1) == 1)

/-- The `/verify` response fields. -/
structure VerifyResult where
  success : Bool
  extractedText : List Nat
  confidenceScore : ℚ
  deriving DecidableEq, Repr

/-- `processVerify`: read 8 LSBs as the length field `len`; if `len` is
0 or `8 + len*8` exceeds the pixel count, stop with
`(false, "", 0.0)`.  Otherwise gather the first `8 + len*8` LSBs (the
source's second loop re-reads from pixel 8 on and stops at the bit
budget, which post-guard is exactly this prefix), decode, and test
`rawText.find(MAGIC_HEADER) == 0`, i.e. whether the header is a prefix:
on a match the header is stripped and the rest sanitized with
confidence 0.99, otherwise `(false, "", 0.1)`. -/
def processVerify (img : RasterImage) : VerifyResult :=
  let len := bitsToByte (extractLSBs img 8)
  if len = 0 ∨ img.rows * img.cols < 8 + len * 8 then
    ⟨false, [], 0⟩
  else
    let rawText := (binaryToText (extractLSBs img (8 + len * 8))).1
    if rawText.take MAGIC_HEADER.length = MAGIC_HEADER then
      ⟨true, sanitizeString (rawText.drop MAGIC_HEADER.length), 99 / 100⟩
    else
      ⟨false, [], 1 / 10⟩

/-- The `/process` response fields of the forensics branch. -/
structure ForensicsReport where
  success : Bool
  score : Nat
  riskLevel : String
  deriving DecidableEq, Repr

/-- `processForensics`: after drawing a Canny-edge preview (cosmetic,
outside the core), the handler sets `success=true`, `score=90` and
`riskLevel="Low"` unconditionally — it computes no recompression
difference and no anomaly intensity. -/
def processForensics (_img : RasterImage) : ForensicsReport :=
  ⟨true, 90, "Low"⟩

/-- A `rows × cols` raster of all-zero pixels, used for concrete
instances. -/
def mkRaster (r c : Nat) : RasterImage :=
  ⟨r, c, List.replicate (r * c) ⟨0, 0, 0⟩, by simp⟩

/-- A `rows × cols` raster whose carrier-channel LSBs spell out `bits`
(missing bits are 0), used for concrete instances. -/
def bitsRaster (r c : Nat) (bits : List Bool) : RasterImage :=
  ⟨r, c, (List.range (r * c)).map
    (fun k => ⟨if bits.getD k false then 1 else 0, 0, 0⟩), by simp⟩

/-! ### Helper lemmas -/

theorem RasterImage.eqOf {r1 r2 : RasterImage} (h1 : r1.rows = r2.rows)
    (h2 : r1.cols = r2.cols) (h3 : r1.data = r2.data) : r1 = r2 := by
  cases r1; cases r2
  dsimp at h1 h2 h3
  subst h1; subst h2; subst h3
  rfl

theorem length_byteBits (c : Nat) : (byteBits c).length = 8 := by
  simp [byteBits]

theorem getD_byteBits (c : Nat) (j : Nat) (hj : j < 8) :
    (byteBits c).getD j false = c.testBit (7 - j) := by
  simp [byteBits, List.getD_eq_getElem?_getD, List.getElem?_map,
    List.getElem?_range, hj]

theorem bitsToByte_eq_of_agree {l1 l2 : List Bool}
    (h : ∀ i < 8, l1.getD i false = l2.getD i false) :
    bitsToByte l1 = bitsToByte l2 := by
  unfold bitsToByte
  apply List.foldl_ext
  intro a b hb
  rw [h b (by simpa using hb)]

theorem bitsToByte_append {l : List Bool} (hl : l.length = 8)
    (rest : List Bool) : bitsToByte (l ++ rest) = bitsToByte l := by
  apply bitsToByte_eq_of_agree
  intro i hi
  simp only [List.getD_eq_getElem?_getD]
  rw [List.getElem?_append_left (by omega)]

set_option maxRecDepth 4096 in
theorem bitsToByte_byteBits (c : Nat) (hc : c < 256) :
    bitsToByte (byteBits c) = c := by
  have h : ∀ c : Fin 256, bitsToByte (byteBits c.val) = c.val := by decide
  exact h ⟨c, hc⟩

theorem bitsToByte_byteBits_append (c : Nat) (hc : c < 256)
    (rest : List Bool) : bitsToByte (byteBits c ++ rest) = c := by
  rw [bitsToByte_append (length_byteBits c)]
  exact bitsToByte_byteBits c hc

theorem length_flatMap_byteBits (t : List Nat) :
    (t.flatMap byteBits).length = 8 * t.length := by
  induction t with
  | nil => rfl
  | cons c t ih =>
    simp only [List.flatMap_cons, List.length_append, length_byteBits,
      List.length_cons, ih]
    omega

theorem textToBinary_eq (t : List Nat) (h1 : t ≠ []) (h2 : t.length ≤ 255) :
    textToBinary t = byteBits t.length ++ t.flatMap byteBits := by
  unfold textToBinary
  rw [if_neg]
  push_neg
  exact ⟨by simpa using h1, by omega⟩

theorem textToBinary_length (t : List Nat) (h1 : t ≠ []) (h2 : t.length ≤ 255) :
    (textToBinary t).length = 8 + 8 * t.length := by
  rw [textToBinary_eq t h1 h2, List.length_append, length_byteBits,
    length_flatMap_byteBits]

theorem drop_flatMap_byteBits (t : List Nat) (i : Nat) :
    (t.flatMap byteBits).drop (8 * i) = (t.drop i).flatMap byteBits := by
  induction i generalizing t with
  | zero => simp
  | succ i ih =>
    cases t with
    | nil => simp
    | cons c t =>
      have h8 : 8 * (i + 1) = 8 + 8 * i := by omega
      rw [h8, List.flatMap_cons, ← List.drop_drop,
        List.drop_left' (length_byteBits c), ih, List.drop_succ_cons]

theorem binaryToText_textToBinary (t : List Nat) (h1 : t ≠ [])
    (h2 : t.length ≤ 255) (hc : ∀ c ∈ t, c < 256) :
    binaryToText (textToBinary t) = (t, 99 / 100) := by
  have hlen0 : t.length ≠ 0 := by simpa using h1
  have htb := textToBinary_eq t h1 h2
  have hlen := textToBinary_length t h1 h2
  have hL : bitsToByte (textToBinary t) = t.length := by
    rw [htb]; exact bitsToByte_byteBits_append _ (by omega) _
  unfold binaryToText
  rw [if_neg (by omega), hL, if_neg (by omega)]
  refine Prod.ext ?_ rfl
  dsimp only
  apply List.ext_getElem (by simp)
  intro i hi hi2
  simp only [List.getElem_map, List.getElem_range]
  have hi' : i < t.length := by simpa using hi
  rw [htb]
  have hdrop : (byteBits t.length ++ t.flatMap byteBits).drop (8 + i * 8) =
      (t.drop i).flatMap byteBits := by
    rw [← List.drop_drop, List.drop_left' (length_byteBits _),
      Nat.mul_comm i 8, drop_flatMap_byteBits]
  rw [hdrop, List.drop_eq_getElem_cons hi', List.flatMap_cons]
  exact bitsToByte_byteBits_append _ (hc _ (List.getElem_mem hi')) _

theorem embedData_getD_of_le (ps : List Pixel) (bs : List Bool) (k : Nat)
    (d : Pixel) (h : bs.length ≤ k) :
    (embedData ps bs).getD k d = ps.getD k d := by
  induction ps generalizing bs k with
  | nil => cases bs <;> rfl
  | cons p ps ih =>
    cases bs with
    | nil => rfl
    | cons b bs =>
      cases k with
      | zero => simp at h
      | succ k =>
        simp only [embedData, List.getD_cons_succ]
        exact ih bs k (by simpa using h)

theorem embedData_getD_of_lt (ps : List Pixel) (bs : List Bool) (k : Nat)
    (d : Pixel) (h1 : k < bs.length) (h2 : k < ps.length) :
    (embedData ps bs).getD k d = setLSB (ps.getD k d) (bs.getD k false) := by
  induction ps generalizing bs k with
  | nil => simp at h2
  | cons p ps ih =>
    cases bs with
    | nil => simp at h1
    | cons b bs =>
      cases k with
      | zero => rfl
      | succ k =>
        simp only [embedData, List.getD_cons_succ]
        exact ih bs k (by simpa using h1) (by simpa using h2)

theorem setLSB_idem (p : Pixel) (b : Bool) :
    setLSB (setLSB p b) b = setLSB p b := by
  unfold setLSB
  simp only [Pixel.mk.injEq, and_true, true_and]
  apply Nat.eq_of_testBit_eq
  intro i
  simp only [Nat.testBit_or, Nat.testBit_and]
  cases hb : (254 : Nat).testBit i <;>
    cases hv : (if b then 1 else 0 : Nat).testBit i <;>
    cases hp : p.blue.testBit i <;> simp

theorem embedData_idem (ps : List Pixel) (bs : List Bool) :
    embedData (embedData ps bs) bs = embedData ps bs := by
  induction ps generalizing bs with
  | nil => cases bs <;> rfl
  | cons p ps ih =>
    cases bs with
    | nil => rfl
    | cons b bs => simp [embedData, setLSB_idem, ih]

theorem and_one_beq (n : Nat) : ((n &&& 1) == 1) = n.testBit 0 := by
  rw [Nat.and_one_is_mod, Nat.testBit_zero]
  rcases Nat.mod_two_eq_zero_or_one n with h | h <;> simp [h]

theorem lsb_setLSB (p : Pixel) (b : Bool) :
    (((setLSB p b).blue &&& 1) == 1) = b := by
  rw [and_one_beq]
  simp only [setLSB, Nat.testBit_or, Nat.testBit_and]
  cases b <;> simp

theorem take_map_embedData (ps : List Pixel) (bs : List Bool) (k : Nat)
    (hk : k ≤ bs.length) (hlen : bs.length ≤ ps.length) :
    ((embedData ps bs).take k).map (fun p => (p.blue &&& 1) == 1) =
      bs.take k := by
  induction ps generalizing bs k with
  | nil =>
    have : bs = [] := by
      cases bs with
      | nil => rfl
      | cons b bs => simp at hlen
    subst this
    have : k = 0 := by simpa using hk
    simp [this]
  | cons p ps ih =>
    cases bs with
    | nil =>
      have : k = 0 := by simpa using hk
      simp [this]
    | cons b bs =>
      cases k with
      | zero => simp
      | succ k =>
        simp only [embedData, List.take_succ_cons, List.map_cons, lsb_setLSB]
        rw [ih bs k (by simpa using hk) (by simpa using hlen)]

theorem extractLSBs_embedBits (img : RasterImage) (bits : List Bool) (k : Nat)
    (hk : k ≤ bits.length) (hcap : bits.length ≤ img.rows * img.cols) :
    extractLSBs (embedBits img bits) k = bits.take k := by
  unfold extractLSBs embedBits
  exact take_map_embedData img.data bits k hk (by rw [img.hsize]; exact hcap)

theorem sanitize_of_printable (l : List Nat)
    (h : ∀ c ∈ l, 32 ≤ c ∧ c ≤ 126) : sanitizeString l = l := by
  unfold sanitizeString
  induction l with
  | nil => rfl
  | cons c l ih =>
    rw [List.map_cons, if_pos (h c (by simp)),
      ih (fun c hc => h c (by simp [hc]))]

theorem setLSB_testBit_zero (p : Pixel) (b : Bool) :
    (setLSB p b).blue.testBit 0 = b := by
  have h254 : (254 : Nat).testBit 0 = false := by decide
  have h1 : (1 : Nat).testBit 0 = true := by decide
  have h0 : (0 : Nat).testBit 0 = false := by decide
  cases b <;>
    simp [setLSB, Nat.testBit_or, Nat.testBit_and, h254, h1, h0]

theorem setLSB_testBit_pos (p : Pixel) (b : Bool) (hb : p.blue < 256)
    (m : Nat) (hm : 1 ≤ m) :
    (setLSB p b).blue.testBit m = p.blue.testBit m := by
  have h2 : 1 < 2 ^ m := Nat.one_lt_two_pow (by omega)
  have hbv : (if b then 1 else 0 : Nat).testBit m = false := by
    apply Nat.testBit_lt_two_pow
    have hle1 : (if b then 1 else 0 : Nat) ≤ 1 := by cases b <;> simp
    omega
  simp only [setLSB, Nat.testBit_or, Nat.testBit_and, hbv, Bool.or_false]
  by_cases h8 : m < 8
  · have h254 : (254 : Nat).testBit m = true := by
      interval_cases m <;> decide
    rw [h254, Bool.and_true]
  · have hle : (256 : Nat) ≤ 2 ^ m := by
      calc (256 : Nat) = 2 ^ 8 := by norm_num
        _ ≤ 2 ^ m := Nat.pow_le_pow_right (by norm_num) (by omega)
    have h254 : (254 : Nat).testBit m = false :=
      Nat.testBit_lt_two_pow (by omega)
    have hblue : p.blue.testBit m = false :=
      Nat.testBit_lt_two_pow (by omega)
    rw [h254, hblue, Bool.and_false]

theorem embedBits_idem (img : RasterImage) (bits : List Bool) :
    embedBits (embedBits img bits) bits = embedBits img bits :=
  RasterImage.eqOf rfl rfl (embedData_idem img.data bits)

/-! ### Claim theorems -/

/-- C10: on any raster with fewer than 16 pixels, extraction always
returns `success=false`, confidence 0 and empty text, since any nonzero
decoded length `L` would require `8 + 8·L ≥ 16` pixels; the model (like
the source, which guards every read) is total, so no exception arises
even when fewer than 8 length bits exist. -/
theorem c10_small_raster_extraction (img : RasterImage)
    (h : img.rows * img.cols < 16) :
    processVerify img = ⟨false, [], 0⟩ := by
  have hguard : bitsToByte (extractLSBs img 8) = 0 ∨
      img.rows * img.cols < 8 + bitsToByte (extractLSBs img 8) * 8 := by
    rcases Nat.eq_zero_or_pos (bitsToByte (extractLSBs img 8)) with h0 | h0
    · exact Or.inl h0
    · right; omega
  simp only [processVerify]
  rw [if_pos hguard]

/-- C10 witness: a 3×5 raster (15 pixels) extracts to
`(false, "", 0)`. -/
theorem c10_witness :
    (mkRaster 3 5).rows * (mkRaster 3 5).cols < 16 ∧
      processVerify (mkRaster 3 5) = ⟨false, [], 0⟩ :=
  ⟨by decide, c10_small_raster_extraction (mkRaster 3 5) (by decide)⟩

/-- C5: if the length field `L` decoded from the first 8 carrier LSBs
is 0, or `8 + 8·L` exceeds the pixel count, extraction stops with
`success=false`, confidence 0, empty text; likewise `binaryToText` on a
bit string (of at least 8 bits) whose length field is 0 or promises
more bits than are available returns the empty text with confidence
0. -/
theorem c5_invalid_length_early_exit :
    (∀ img : RasterImage,
      (bitsToByte (extractLSBs img 8) = 0 ∨
        img.rows * img.cols < 8 + bitsToByte (extractLSBs img 8) * 8) →
      processVerify img = ⟨false, [], 0⟩) ∧
    (∀ bits : List Bool, 8 ≤ bits.length →
      (bitsToByte bits = 0 ∨ bits.length < 8 + bitsToByte bits * 8) →
      binaryToText bits = ([], 0)) := by
  constructor
  · intro img h
    simp only [processVerify]
    rw [if_pos h]
  · intro bits h8 h
    simp only [binaryToText]
    rw [if_neg (by omega), if_pos h]

/-- C5 witness: an all-zero 4×4 raster decodes `L = 0`; eight `1` bits
decode `L = 255` with no data bits behind them. -/
theorem c5_witness :
    (bitsToByte (extractLSBs (mkRaster 4 4) 8) = 0 ∨
      (mkRaster 4 4).rows * (mkRaster 4 4).cols <
        8 + bitsToByte (extractLSBs (mkRaster 4 4) 8) * 8) ∧
    processVerify (mkRaster 4 4) = ⟨false, [], 0⟩ ∧
    8 ≤ (List.replicate 8 true).length ∧
    (bitsToByte (List.replicate 8 true) = 0 ∨
      (List.replicate 8 true).length <
        8 + bitsToByte (List.replicate 8 true) * 8) ∧
    binaryToText (List.replicate 8 true) = ([], 0) :=
  ⟨by decide, c5_invalid_length_early_exit.1 (mkRaster 4 4) (by decide),
    by decide, by decide,
    c5_invalid_length_early_exit.2 (List.replicate 8 true) (by decide)
      (by decide)⟩

/-- C6: when the decoded length field is nonzero and within capacity
but the decoded text does not start with the magic header, verification
returns `success=false` with confidence exactly 0.1 (hence ≤ 0.1). -/
theorem c6_foreign_payload_low_confidence (img : RasterImage)
    (hne : bitsToByte (extractLSBs img 8) ≠ 0)
    (hcap : 8 + bitsToByte (extractLSBs img 8) * 8 ≤ img.rows * img.cols)
    (hhdr : (binaryToText (extractLSBs img
        (8 + bitsToByte (extractLSBs img 8) * 8))).1.take
        MAGIC_HEADER.length ≠ MAGIC_HEADER) :
    processVerify img = ⟨false, [], 1 / 10⟩ ∧
      (processVerify img).confidenceScore ≤ 1 / 10 := by
  have h1 : processVerify img = ⟨false, [], 1 / 10⟩ := by
    simp only [processVerify]
    rw [if_neg (by push_neg; exact ⟨hne, by omega⟩), if_neg hhdr]
  exact ⟨h1, by rw [h1]⟩

/-- C6 witness: a 4×4 raster whose LSBs frame the single character
`'A'` (length field 1) decodes a structured length but no magic header,
so confidence is exactly 0.1. -/
theorem c6_witness :
    bitsToByte (extractLSBs (bitsRaster 4 4
      [false, false, false, false, false, false, false, true,
       false, true, false, false, false, false, false, true]) 8) ≠ 0 ∧
    processVerify (bitsRaster 4 4
      [false, false, false, false, false, false, false, true,
       false, true, false, false, false, false, false, true]) =
      ⟨false, [], 1 / 10⟩ :=
  ⟨by decide,
    (c6_foreign_payload_low_confidence (bitsRaster 4 4
      [false, false, false, false, false, false, false, true,
       false, true, false, false, false, false, false, true])
      (by decide) (by decide) (by decide)).1⟩

/-- C2 counterexample: the claim requires every analysis result to
score 96, 72 or 45 according to the anomaly intensity, but the code
returns score 90 for the all-zero 8×8 raster (indeed for every raster),
which is none of them. -/
theorem c2_counterexample :
    processForensics (mkRaster 8 8) = ⟨true, 90, "Low"⟩ ∧
      (processForensics (mkRaster 8 8)).score ≠ 96 ∧
      (processForensics (mkRaster 8 8)).score ≠ 72 ∧
      (processForensics (mkRaster 8 8)).score ≠ 45 :=
  ⟨rfl, by decide, by decide, by decide⟩

/-- C2 amended: `processForensics` performs no recompression-difference
classification at all; it returns success with constant score 90 and
risk level `"Low"` for every input raster. -/
theorem c2_amended_constant_forensics (img : RasterImage) :
    processForensics img = ⟨true, 90, "Low"⟩ := rfl

/-- C9 counterexample: the empty payload does not fail: the magic
header is prepended before `textToBinary`'s empty-text check, so the
framed text `"#IS#"` is accepted and embedded (here into an 8×8
raster), contradicting the claim that every empty payload fails with a
`PayloadError`. -/
theorem c9_counterexample :
    processWatermark (mkRaster 8 8) [] =
      .ok (embedBits (mkRaster 8 8) (textToBinary MAGIC_HEADER)) ∧
      processWatermark (mkRaster 8 8) [] ≠ .error .invalidPayload := by
  constructor
  · rfl
  · intro h
    have h' : (Except.ok (embedBits (mkRaster 8 8) (textToBinary MAGIC_HEADER)) :
        Except EmbedError RasterImage) = .error .invalidPayload := h
    exact Except.noConfusion h'

/-- C9 amended: framing fails with the payload error iff the combined
header+payload length exceeds 255 characters (payload longer than 251);
in particular the empty payload is accepted (the bare header is framed)
and every payload within the bound frames successfully. -/
theorem c9_amended_frame_failure_iff (img : RasterImage)
    (payload : List Nat) :
    (processWatermark img payload = .error .invalidPayload ↔
      255 < MAGIC_HEADER.length + payload.length) ∧
    (textToBinary (MAGIC_HEADER ++ payload) = [] ↔
      255 < MAGIC_HEADER.length + payload.length) := by
  have hne : (MAGIC_HEADER ++ payload) ≠ [] := by simp [MAGIC_HEADER]
  have hlen : (MAGIC_HEADER ++ payload).length =
      MAGIC_HEADER.length + payload.length := by simp
  constructor
  · by_cases hbig : 255 < MAGIC_HEADER.length + payload.length
    · have hempty : textToBinary (MAGIC_HEADER ++ payload) = [] := by
        unfold textToBinary
        rw [if_pos (Or.inr (by omega))]
      simp only [processWatermark, hempty]
      simpa using hbig
    · have hl := textToBinary_length (MAGIC_HEADER ++ payload) hne (by omega)
      simp only [processWatermark]
      rw [if_neg (by omega)]
      constructor
      · intro h
        split at h <;> simp_all
      · intro h
        omega
  · constructor
    · intro h
      by_contra hbig
      have hl := textToBinary_length (MAGIC_HEADER ++ payload) hne (by omega)
      rw [h] at hl
      simp only [List.length_nil] at hl
      omega
    · intro hbig
      unfold textToBinary
      rw [if_pos (Or.inr (by omega))]

set_option maxRecDepth 8192 in
/-- C3 counterexample: a 252-character payload on the 7×9 raster has a
framed bit length (2056) far above the 63-pixel capacity, yet the code
fails with the payload error (framed length 256 > 255 empties
`textToBinary` first), not with `CapacityError` as the claim demands
for every such payload. -/
theorem c3_counterexample :
    processWatermark (mkRaster 7 9) (List.replicate 252 65) =
      .error .invalidPayload ∧
      EmbedError.invalidPayload ≠ EmbedError.capacityError :=
  ⟨rfl, by decide⟩

/-- C3 amended: for every payload whose combined header+payload length
is at most 255, if the framed bit length `8 + 8·(len(header)+len(payload))`
exceeds `rows·cols` then embedding fails with `CapacityError` (and,
since the error is raised before the encode step, the destination is
never written). -/
theorem c3_amended_capacity_error (img : RasterImage) (payload : List Nat)
    (hframe : MAGIC_HEADER.length + payload.length ≤ 255)
    (hcap : img.rows * img.cols <
      8 + 8 * (MAGIC_HEADER.length + payload.length)) :
    processWatermark img payload = .error .capacityError := by
  have hne : (MAGIC_HEADER ++ payload) ≠ [] := by simp [MAGIC_HEADER]
  have hlen : (MAGIC_HEADER ++ payload).length =
      MAGIC_HEADER.length + payload.length := by simp
  have hl := textToBinary_length (MAGIC_HEADER ++ payload) hne (by omega)
  simp only [processWatermark]
  rw [if_neg (by omega), if_pos (by omega)]

/-- C3 witness: the spec's concrete scenario: payload `"AAA"` frames to
7 characters (64 bits), which does not fit the 63 pixels of a 7×9
raster, so embedding fails with `CapacityError`. -/
theorem c3_witness :
    MAGIC_HEADER.length + ([65, 65, 65] : List Nat).length ≤ 255 ∧
    (mkRaster 7 9).rows * (mkRaster 7 9).cols <
      8 + 8 * (MAGIC_HEADER.length + ([65, 65, 65] : List Nat).length) ∧
    processWatermark (mkRaster 7 9) [65, 65, 65] = .error .capacityError :=
  ⟨by decide, by decide,
    c3_amended_capacity_error (mkRaster 7 9) [65, 65, 65] (by decide)
      (by decide)⟩

/-- C4: for a framed text of length 1..255, `textToBinary` yields
exactly `8 + 8·L` bits: the first 8 are the MSB-first bits of the
length `L`, and bit `8 + 8·i + j` is bit `7−j` of character `i`. -/
theorem c4_frame_bit_layout (text : List Nat) (h1 : 1 ≤ text.length)
    (h2 : text.length ≤ 255) :
    (textToBinary text).length = 8 + 8 * text.length ∧
    (∀ j < 8, (textToBinary text).getD j false =
      text.length.testBit (7 - j)) ∧
    (∀ i < text.length, ∀ j < 8,
      (textToBinary text).getD (8 + 8 * i + j) false =
        (text.getD i 0).testBit (7 - j)) := by
  have hne : text ≠ [] := by
    intro h
    rw [h] at h1
    simp at h1
  have heq := textToBinary_eq text hne h2
  refine ⟨textToBinary_length text hne h2, ?_, ?_⟩
  · intro j hj
    rw [heq, List.getD_eq_getElem?_getD,
      List.getElem?_append_left (by rw [length_byteBits]; omega),
      ← List.getD_eq_getElem?_getD]
    exact getD_byteBits _ j hj
  · intro i hi j hj
    rw [heq, List.getD_eq_getElem?_getD,
      List.getElem?_append_right (by rw [length_byteBits]; omega)]
    have harith : 8 + 8 * i + j - (byteBits text.length).length =
        8 * i + j := by
      rw [length_byteBits]
      omega
    rw [harith, ← List.getElem?_drop, drop_flatMap_byteBits text i,
      List.drop_eq_getElem_cons hi, List.flatMap_cons,
      List.getElem?_append_left (by rw [length_byteBits]; omega),
      ← List.getD_eq_getElem?_getD, getD_byteBits _ j hj]
    congr 1
    rw [List.getD_eq_getElem?_getD, List.getElem?_eq_getElem hi]
    rfl

/-- C4 witness: the single character `'A'` frames into 16 bits with the
stated layout. -/
theorem c4_witness :
    1 ≤ ([65] : List Nat).length ∧ ([65] : List Nat).length ≤ 255 ∧
    ((textToBinary [65]).length = 8 + 8 * ([65] : List Nat).length ∧
      (∀ j < 8, (textToBinary [65]).getD j false =
        ([65] : List Nat).length.testBit (7 - j)) ∧
      (∀ i < ([65] : List Nat).length, ∀ j < 8,
        (textToBinary [65]).getD (8 + 8 * i + j) false =
          (([65] : List Nat).getD i 0).testBit (7 - j))) :=
  ⟨by decide, by decide, c4_frame_bit_layout [65] (by decide) (by decide)⟩

/-- C7: embedding `n ≤ rows·cols` bits rewrites only the LSB of the
carrier (blue) channel of the first `n` pixels in row-major order —
green and red are untouched, the new blue LSB equals the embedded bit,
every higher blue bit is unchanged — and every pixel from index `n` on
is exactly the original.  The model embeds into a pure copy
(`img.clone()` in the source), so the caller's raster is unchanged by
construction. -/
theorem c7_embed_touches_only_lsb (img : RasterImage) (bits : List Bool)
    (hcap : bits.length ≤ img.rows * img.cols)
    (hvalid : ∀ p ∈ img.data, p.blue < 256) :
    (embedBits img bits).rows = img.rows ∧
    (embedBits img bits).cols = img.cols ∧
    (∀ k < bits.length,
      ((embedBits img bits).data.getD k ⟨0, 0, 0⟩).green =
        (img.data.getD k ⟨0, 0, 0⟩).green ∧
      ((embedBits img bits).data.getD k ⟨0, 0, 0⟩).red =
        (img.data.getD k ⟨0, 0, 0⟩).red ∧
      ((embedBits img bits).data.getD k ⟨0, 0, 0⟩).blue.testBit 0 =
        bits.getD k false ∧
      (∀ m, 1 ≤ m →
        ((embedBits img bits).data.getD k ⟨0, 0, 0⟩).blue.testBit m =
          (img.data.getD k ⟨0, 0, 0⟩).blue.testBit m)) ∧
    (∀ k, bits.length ≤ k →
      (embedBits img bits).data.getD k ⟨0, 0, 0⟩ =
        img.data.getD k ⟨0, 0, 0⟩) := by
  have hdlen : bits.length ≤ img.data.length := by
    rw [img.hsize]
    exact hcap
  refine ⟨rfl, rfl, ?_, ?_⟩
  · intro k hk
    have hk2 : k < img.data.length := lt_of_lt_of_le hk hdlen
    have hpix : (embedBits img bits).data.getD k ⟨0, 0, 0⟩ =
        setLSB (img.data.getD k ⟨0, 0, 0⟩) (bits.getD k false) :=
      embedData_getD_of_lt img.data bits k _ hk hk2
    have hget : img.data.getD k ⟨0, 0, 0⟩ = img.data.get ⟨k, hk2⟩ := by
      rw [List.getD_eq_getElem?_getD, List.getElem?_eq_getElem hk2]
      rfl
    have hmem : img.data.getD k ⟨0, 0, 0⟩ ∈ img.data := by
      rw [hget]
      exact List.get_mem img.data k hk2
    refine ⟨by rw [hpix]; rfl, by rw [hpix]; rfl,
      by rw [hpix]; exact setLSB_testBit_zero _ _, ?_⟩
    intro m hm
    rw [hpix]
    exact setLSB_testBit_pos _ _ (hvalid _ hmem) m hm
  · intro k hk
    exact embedData_getD_of_le img.data bits k _ hk

/-- C7 witness: three bits into a 2×2 all-zero raster. -/
theorem c7_witness :
    ([true, false, true] : List Bool).length ≤
      (mkRaster 2 2).rows * (mkRaster 2 2).cols ∧
    (∀ p ∈ (mkRaster 2 2).data, p.blue < 256) ∧
    ((embedBits (mkRaster 2 2) [true, false, true]).rows =
        (mkRaster 2 2).rows ∧
      (embedBits (mkRaster 2 2) [true, false, true]).cols =
        (mkRaster 2 2).cols ∧
      (∀ k < ([true, false, true] : List Bool).length,
        ((embedBits (mkRaster 2 2) [true, false, true]).data.getD k
            ⟨0, 0, 0⟩).green =
          ((mkRaster 2 2).data.getD k ⟨0, 0, 0⟩).green ∧
        ((embedBits (mkRaster 2 2) [true, false, true]).data.getD k
            ⟨0, 0, 0⟩).red =
          ((mkRaster 2 2).data.getD k ⟨0, 0, 0⟩).red ∧
        ((embedBits (mkRaster 2 2) [true, false, true]).data.getD k
            ⟨0, 0, 0⟩).blue.testBit 0 =
          ([true, false, true] : List Bool).getD k false ∧
        (∀ m, 1 ≤ m →
          ((embedBits (mkRaster 2 2) [true, false, true]).data.getD k
              ⟨0, 0, 0⟩).blue.testBit m =
            ((mkRaster 2 2).data.getD k ⟨0, 0, 0⟩).blue.testBit m)) ∧
      (∀ k, ([true, false, true] : List Bool).length ≤ k →
        (embedBits (mkRaster 2 2) [true, false, true]).data.getD k
            ⟨0, 0, 0⟩ =
          (mkRaster 2 2).data.getD k ⟨0, 0, 0⟩)) :=
  ⟨by decide, by decide,
    c7_embed_touches_only_lsb (mkRaster 2 2) [true, false, true]
      (by decide) (by decide)⟩

/-- C8: the embed is a pure overwrite: whenever embedding a payload into
a raster succeeds, embedding the same payload again into the result
returns the result unchanged, bit for bit — in particular the
carrier-channel contents obtained from the same original are identical
both times (the model is a pure function, so two runs from the same
original agree definitionally; idempotence is what separates an
overwrite from an XOR or additive embedding). -/
theorem c8_pure_overwrite_idempotent (img : RasterImage)
    (payload : List Nat) (wm : RasterImage)
    (h : processWatermark img payload = .ok wm) :
    processWatermark wm payload = .ok wm := by
  simp only [processWatermark] at h ⊢
  by_cases h0 : (textToBinary (MAGIC_HEADER ++ payload)).length = 0
  · rw [if_pos h0] at h
    exact absurd h (by simp)
  · rw [if_neg h0] at h ⊢
    by_cases hc : img.rows * img.cols <
        (textToBinary (MAGIC_HEADER ++ payload)).length
    · rw [if_pos hc] at h
      exact absurd h (by simp)
    · rw [if_neg hc] at h
      have hwm : wm =
          embedBits img (textToBinary (MAGIC_HEADER ++ payload)) := by
        injection h with h'
        exact h'.symm
      subst hwm
      have hc' : ¬((embedBits img (textToBinary (MAGIC_HEADER ++ payload))).rows *
          (embedBits img (textToBinary (MAGIC_HEADER ++ payload))).cols <
          (textToBinary (MAGIC_HEADER ++ payload)).length) := hc
      rw [if_neg hc', embedBits_idem]

/-- C8 witness: the spec's concrete scenario: `"ABC"` on an 8×8 raster
(64 pixels, exactly at capacity); re-embedding into the watermarked
raster returns it unchanged. -/
theorem c8_witness :
    processWatermark
        (embedBits (mkRaster 8 8) (textToBinary (MAGIC_HEADER ++ [65, 66, 67])))
        [65, 66, 67] =
      .ok (embedBits (mkRaster 8 8)
        (textToBinary (MAGIC_HEADER ++ [65, 66, 67]))) :=
  c8_pure_overwrite_idempotent (mkRaster 8 8) [65, 66, 67] _ rfl

/-- C1: round trip: for a printable-ASCII payload of length 1..251 and
a raster with at least `8 + 8·(len(header)+len(payload))` pixels,
embedding the framed payload succeeds and extraction from the result
returns `success=true` with the original payload. -/
theorem c1_round_trip (img : RasterImage) (payload : List Nat)
    (h1 : 1 ≤ payload.length) (h2 : payload.length ≤ 251)
    (hprint : ∀ c ∈ payload, 32 ≤ c ∧ c ≤ 126)
    (hcap : 8 + 8 * (MAGIC_HEADER.length + payload.length) ≤
      img.rows * img.cols) :
    ∃ wm, processWatermark img payload = .ok wm ∧
      (processVerify wm).success = true ∧
      (processVerify wm).extractedText = payload := by
  have hML : MAGIC_HEADER.length = 4 := rfl
  have hfplen : (MAGIC_HEADER ++ payload).length = 4 + payload.length := by
    simp [MAGIC_HEADER]
    omega
  have hfpne : (MAGIC_HEADER ++ payload) ≠ [] := by simp [MAGIC_HEADER]
  have hfple : (MAGIC_HEADER ++ payload).length ≤ 255 := by omega
  have hbl := textToBinary_length _ hfpne hfple
  have hcap' : (textToBinary (MAGIC_HEADER ++ payload)).length ≤
      img.rows * img.cols := by omega
  have hchars : ∀ c ∈ MAGIC_HEADER ++ payload, c < 256 := by
    intro c hc
    rcases List.mem_append.1 hc with hh | hp
    · simp [MAGIC_HEADER] at hh
      omega
    · have := hprint c hp
      omega
  have hbt := binaryToText_textToBinary _ hfpne hfple hchars
  have hwm : processWatermark img payload =
      .ok (embedBits img (textToBinary (MAGIC_HEADER ++ payload))) := by
    simp only [processWatermark]
    rw [if_neg (by omega), if_neg (by omega)]
  have hL8 := extractLSBs_embedBits img
    (textToBinary (MAGIC_HEADER ++ payload)) 8 (by omega) hcap'
  have htake8 : (textToBinary (MAGIC_HEADER ++ payload)).take 8 =
      byteBits (MAGIC_HEADER ++ payload).length := by
    rw [textToBinary_eq _ hfpne hfple]
    exact List.take_left' (length_byteBits _)
  have hlenfield : bitsToByte (extractLSBs
      (embedBits img (textToBinary (MAGIC_HEADER ++ payload))) 8) =
      (MAGIC_HEADER ++ payload).length := by
    rw [hL8, htake8]
    exact bitsToByte_byteBits _ (by omega)
  have hfull : extractLSBs
      (embedBits img (textToBinary (MAGIC_HEADER ++ payload)))
      (8 + (MAGIC_HEADER ++ payload).length * 8) =
      textToBinary (MAGIC_HEADER ++ payload) := by
    have h := extractLSBs_embedBits img
      (textToBinary (MAGIC_HEADER ++ payload))
      (textToBinary (MAGIC_HEADER ++ payload)).length le_rfl hcap'
    rw [List.take_length] at h
    rw [show 8 + (MAGIC_HEADER ++ payload).length * 8 =
      (textToBinary (MAGIC_HEADER ++ payload)).length by omega]
    exact h
  have hpv : processVerify
      (embedBits img (textToBinary (MAGIC_HEADER ++ payload))) =
      ⟨true, payload, 99 / 100⟩ := by
    simp only [processVerify]
    rw [hlenfield]
    have hrc : (embedBits img (textToBinary (MAGIC_HEADER ++ payload))).rows *
        (embedBits img (textToBinary (MAGIC_HEADER ++ payload))).cols =
        img.rows * img.cols := rfl
    rw [if_neg (by rw [hrc]; push_neg; exact ⟨by omega, by omega⟩)]
    rw [hfull, hbt]
    dsimp only
    rw [if_pos (List.take_left MAGIC_HEADER payload)]
    rw [List.drop_left, sanitize_of_printable payload hprint]
  exact ⟨_, hwm, by rw [hpv], by rw [hpv]⟩

/-- C1 witness: payload `"A"` on a 4×12 raster (48 pixels, exactly the
required 8 + 8·5 bits). -/
theorem c1_witness :
    1 ≤ ([65] : List Nat).length ∧ ([65] : List Nat).length ≤ 251 ∧
    (∀ c ∈ ([65] : List Nat), 32 ≤ c ∧ c ≤ 126) ∧
    8 + 8 * (MAGIC_HEADER.length + ([65] : List Nat).length) ≤
      (mkRaster 4 12).rows * (mkRaster 4 12).cols ∧
    (∃ wm, processWatermark (mkRaster 4 12) [65] = .ok wm ∧
      (processVerify wm).success = true ∧
      (processVerify wm).extractedText = [65]) :=
  ⟨by decide, by decide, by decide, by decide,
    c1_round_trip (mkRaster 4 12) [65] (by decide) (by decide) (by decide)
      (by decide)⟩

end ImageSentinel
